import Mathlib

/-!
Shallow embedding of the `ar` archive codec (package `ar`, file `ar.go`).

Streams and sinks are modelled as `List Nat` of byte values (0..255); the
`bufio` buffering layer is abstracted away: reading consumes a prefix of the
list, `UnreadByte` leaves the list untouched, writing appends to the output
list (a list sink never fails, like `bytes.Buffer`).  Machine integers are
`Nat`/`Int` with the explicit range checks that `strconv` performs.  Fallible
operations return `Except`/`Option`; the two `panic` sites of the source are
modelled by the distinguished error constructor `ArError.panicked`.
-/

namespace Ar

/-! ### Byte classification and trimming (`bytes.TrimSpace` on ASCII input) -/

/-- The ASCII bytes `unicode.IsSpace` accepts: tab, newline, vertical tab,
form feed, carriage return, space.  (`bytes.TrimSpace` on ASCII data trims
exactly these bytes.) -/
def isSpaceB (c : Nat) : Bool :=
  c == 9 || c == 10 || c == 11 || c == 12 || c == 13 || c == 32

/-- `bytes.TrimSpace`: drop leading and trailing ASCII whitespace. -/
def trimSpace (l : List Nat) : List Nat :=
  ((l.dropWhile isSpaceB).reverse.dropWhile isSpaceB).reverse

/-! ### `strconv` number parsing and formatting -/

/-- Failure modes of `strconv.ParseUint` / `strconv.ParseInt`. -/
inductive NumErr where
  | synErr
  | rangeErr
deriving DecidableEq, Repr

/-- Digit value of a byte, as `strconv` computes it: `0`-`9`, then letters
(case folded) starting at 10; anything else is rejected. -/
def digitVal (c : Nat) : Option Nat :=
  if 48 ≤ c ∧ c ≤ 57 then some (c - 48)
  else if 97 ≤ c ∧ c ≤ 122 then some (c - 97 + 10)
  else if 65 ≤ c ∧ c ≤ 90 then some (c - 65 + 10)
  else none

/-- Digit-accumulation loop of `strconv.ParseUint`: reject a non-digit at
once (syntax error), reject overflow past `maxVal` at once (range error). -/
def parseUintAux (base maxVal : Nat) : List Nat → Nat → Except NumErr Nat
  | [], acc => .ok acc
  | c :: rest, acc =>
    match digitVal c with
    | none => .error .synErr
    | some d =>
      if base ≤ d then .error .synErr
      else if maxVal < acc * base + d then .error .rangeErr
      else parseUintAux base maxVal rest (acc * base + d)

/-- `strconv.ParseUint(s, base, bits)`: empty input and signs are syntax
errors; the value must fit in `bits` unsigned bits. -/
def parseUint (base bits : Nat) (s : List Nat) : Except NumErr Nat :=
  match s with
  | [] => .error .synErr
  | _ => parseUintAux base (2 ^ bits - 1) s 0

/-- Unsigned-then-range part of `strconv.ParseInt`: parse the digits
unsigned, then check the signed range `[-2^(bits-1), 2^(bits-1)-1]`. -/
def parseIntCore (base bits : Nat) (digits : List Nat) (neg : Bool) : Except NumErr Int :=
  match parseUint base bits digits with
  | .error e => .error e
  | .ok un =>
    if neg = false ∧ 2 ^ (bits - 1) ≤ un then .error .rangeErr
    else if neg = true ∧ 2 ^ (bits - 1) < un then .error .rangeErr
    else .ok (if neg then -(un : Int) else (un : Int))

/-- `strconv.ParseInt(s, base, bits)`: strip one optional leading sign,
then run the unsigned parse and the signed range check. -/
def parseInt (base bits : Nat) (s : List Nat) : Except NumErr Int :=
  match s with
  | [] => .error .synErr
  | c :: rest =>
    if c = 43 then parseIntCore base bits rest false
    else if c = 45 then parseIntCore base bits rest true
    else parseIntCore base bits (c :: rest) false

/-- Little-endian digit list of `n` in base `b`, driven by explicit fuel so
that the definition is structural and kernel-computable. -/
def digitsLE (b : Nat) : Nat → Nat → List Nat
  | 0, _ => []
  | fuel + 1, n => if n = 0 then [] else n % b :: digitsLE b fuel (n / b)

/-- `strconv.FormatUint(n, b)`: the base-`b` digit string of `n`. -/
def formatNat (b n : Nat) : List Nat :=
  if n = 0 then [48] else ((digitsLE b n n).reverse.map (fun d => 48 + d))

/-- `strconv.FormatInt(i, b)`: a leading minus sign for negative values. -/
def formatInt (b : Nat) (i : Int) : List Nat :=
  if i < 0 then 45 :: formatNat b i.natAbs else formatNat b i.toNat

/-! ### Errors of the `ar` package -/

/-- Errors observable from the package: the propagated stream conditions
`io.EOF`, `io.ErrUnexpectedEOF` and `os.ErrNotExist`, the two domain error
kinds `CorruptArchiveError` and `NotImplementedError`, and a marker for the
two `panic` sites (which never return at all in Go). -/
inductive ArError where
  | eof
  | unexpectedEof
  | notExist
  | corrupt (msg : String)
  | notImplemented (msg : String)
  | panicked (msg : String)
deriving DecidableEq, Repr

/-- Message carried by a `CorruptArchiveError` wrapping a failed
`strconv.ParseInt` (the dynamic operand text is abstracted away). -/
def intErrMsg : NumErr → String
  | .synErr => "strconv.ParseInt: invalid syntax"
  | .rangeErr => "strconv.ParseInt: value out of range"

/-- Message carried by a `CorruptArchiveError` wrapping a failed
`strconv.ParseUint` (the dynamic operand text is abstracted away). -/
def uintErrMsg : NumErr → String
  | .synErr => "strconv.ParseUint: invalid syntax"
  | .rangeErr => "strconv.ParseUint: value out of range"

/-! ### Constants and stream primitives -/

/-- The global magic `"!<arch>\n"`. -/
def magicBytes : List Nat := [33, 60, 97, 114, 99, 104, 62, 10]

/-- The per-file magic `"\x60\x0A"`. -/
def filemagicBytes : List Nat := [96, 10]

/-- `io.ReadFull(stream, buf[0:n])` over a list stream: `io.EOF` when no
byte is available, `io.ErrUnexpectedEOF` on a partial read, otherwise the
`n` bytes read together with the rest of the stream. -/
def readFull (s : List Nat) (n : Nat) : Except ArError (List Nat × List Nat) :=
  if n ≤ s.length then .ok (s.take n, s.drop n)
  else if s.length = 0 then .error .eof
  else .error .unexpectedEof

/-- `checkMagic`: read exactly 8 bytes and compare with the global magic,
propagating stream conditions unchanged. -/
def checkMagic (s : List Nat) : Except ArError (List Nat) :=
  match readFull s magicBytes.length with
  | .error e => .error e
  | .ok (m, rest) =>
    if m = magicBytes then .ok rest
    else .error (.corrupt "global archive header not found")

/-! ### Header codec -/

/-- Decoded entry metadata (`fileInfo`): name bytes, `os.FileMode` value,
size in bytes, modification time in Unix seconds. -/
structure FileInfo where
  name : List Nat
  mode : Nat
  size : Int
  mtime : Int
deriving DecidableEq, Repr

/-- `parseFileMode`: octal-parse the mode field, reject bits outside
`os.ModePerm ∪ syscall.S_IFMT` (numerically `0o170777`), allow only an
unset or regular (`S_IFREG = 0o100000`) file type, return the permission
bits `mode &&& 0o777`. -/
def parseFileMode (s : List Nat) : Except ArError Nat :=
  match parseUint 8 32 s with
  | .error e => .error (.corrupt (uintErrMsg e))
  | .ok mode =>
    if mode ≠ mode &&& 0o170777 then .error (.corrupt "invalid file mode")
    else if mode &&& 0o170000 = 0 ∨ mode &&& 0o170000 = 0o100000 then
      .ok (mode &&& 0o777)
    else .error (.notImplemented "non-regular files")

/-- `parseFileHeader`: decode a 60-byte header block.  A block of any other
length hits the source's `panic("invalid file header")`. -/
def parseFileHeader (header : List Nat) : Except ArError FileInfo :=
  if header.length ≠ 60 then .error (.panicked "invalid file header")
  else if header.getD 58 0 ≠ 96 ∨ header.getD 59 0 ≠ 10 then
    .error (.corrupt "per file magic not found")
  else
    let name := trimSpace (header.take 16)
    match parseInt 10 64 (trimSpace ((header.drop 16).take 12)) with
    | .error e => .error (.corrupt (intErrMsg e))
    | .ok secs =>
      match parseFileMode (trimSpace ((header.drop 40).take 8)) with
      | .error e => .error e
      | .ok filemode =>
        match parseInt 10 64 (trimSpace ((header.drop 48).take 10)) with
        | .error e => .error (.corrupt (intErrMsg e))
        | .ok filesize => .ok ⟨name, filemode, filesize, secs⟩

/-- Go's `copy(h[i:], s)`: overwrite `h` from position `i` with as much of
`s` as fits, leaving the rest of `h` unchanged. -/
def copyAt (h : List Nat) (i : Nat) (s : List Nat) : List Nat :=
  h.take i ++ s.take (h.length - i) ++ h.drop (i + s.length)

/-- `writeFileHeader` body: fill 60 spaces, then copy the fields at their
fixed offsets in source order (name, mtime, owner `"0"`, group `"0"`,
octal mode, decimal size, per-file magic). -/
def writeFileHeader (meta : FileInfo) : Except ArError (List Nat) :=
  if 16 < meta.name.length then
    .error (.notImplemented "file names longer than 16 bytes are not supported")
  else
    let h0 := List.replicate 60 32
    let h1 := copyAt h0 0 meta.name
    let h2 := copyAt h1 16 (formatInt 10 meta.mtime)
    let h3 := copyAt h2 28 [48]
    let h4 := copyAt h3 34 [48]
    let h5 := copyAt h4 40 (formatNat 8 meta.mode)
    let h6 := copyAt h5 48 (formatInt 10 meta.size)
    .ok (copyAt h6 58 filemagicBytes)

/-! ### Archive Reader -/

/-- State of `Reader`: the remaining bytes of the underlying stream (the
`bufio.Reader`), the `valid` flag (global magic already checked), the sticky
error, and the `io.LimitedReader` section cursor (`section.R != nil` is
`sectionOpen`, `section.N` is `sectionN`). -/
structure ReaderState where
  stream : List Nat
  valid : Bool
  err : Option ArError
  sectionOpen : Bool
  sectionN : Int
deriving DecidableEq, Repr

/-- `NewReader(r)`. -/
def newReader (s : List Nat) : ReaderState :=
  { stream := s, valid := false, err := none, sectionOpen := false, sectionN := 0 }

/-- `Reader.Reset(in)`: rebind the buffer to the new stream, clear `valid`,
the sticky error, and the section cursor. -/
def resetReader (r : ReaderState) (s : List Nat) : ReaderState :=
  { r with stream := s, valid := false, err := none, sectionOpen := false, sectionN := 0 }

/-- `Reader.flush_section`: panic when no section is open.  When unread
payload bytes remain, `io.Copy(ioutil.Discard, &r.section)` drains them
(an `io.LimitedReader` reports success even when the underlying stream is
exhausted early) and the function returns at once — faithfully including
the source's early `return r.stick(err)` that skips the padding-byte step
and leaves the section cursor set.  Otherwise read one byte, keep it if it
is the padding byte `'\n'`, push it back otherwise, and clear the cursor. -/
def flush_section (r : ReaderState) : ReaderState × Option ArError :=
  if r.sectionOpen = false then
    (r, some (.panicked "flush_section called, but no section present"))
  else if 0 < r.sectionN then
    let k := min r.sectionN.toNat r.stream.length
    ({ r with stream := r.stream.drop k, sectionN := r.sectionN - k, err := none }, none)
  else
    match r.stream with
    | [] => ({ r with err := some .eof }, some .eof)
    | c :: rest =>
      if c = 10 then ({ r with stream := rest, sectionOpen := false, sectionN := 0 }, none)
      else ({ r with sectionOpen := false, sectionN := 0 }, none)

/-- Final phase of `Reader.Next`: read the 60 header bytes with
`io.ReadFull`, decode them, open the new payload section.  Errors stick. -/
def nextHeader (r2 : ReaderState) : ReaderState × Except ArError FileInfo :=
  match readFull r2.stream 60 with
  | .error e => ({ r2 with err := some e }, .error e)
  | .ok (h, rest) =>
    let r3 := { r2 with stream := rest }
    match parseFileHeader h with
    | .error e => ({ r3 with err := some e }, .error e)
    | .ok fi => ({ r3 with sectionOpen := true, sectionN := fi.size }, .ok fi)

/-- Middle phase of `Reader.Next`: flush an open section (sticking its
error), then read and decode the next header. -/
def nextBody (r1 : ReaderState) : ReaderState × Except ArError FileInfo :=
  match (if r1.sectionOpen then flush_section r1 else (r1, none)) with
  | (r2, some e) => ({ r2 with err := some e }, .error e)
  | (r2, none) => nextHeader r2

/-- `Reader.Next`: short-circuit on the sticky error; check the global magic
once; flush an open section; read the 60 header bytes with `io.ReadFull`;
decode them; open the new payload section.  Every error return is stuck. -/
def next (r0 : ReaderState) : ReaderState × Except ArError FileInfo :=
  match r0.err with
  | some e => (r0, .error e)
  | none =>
    match (if r0.valid then .ok r0.stream else checkMagic r0.stream : Except ArError (List Nat)) with
    | .error e => ({ r0 with err := some e }, .error e)
    | .ok s1 => nextBody { r0 with stream := s1, valid := true }

/-- `Reader.Read(b)` with `b` of length `n`: short-circuit on the sticky
error; read from the open section (the `io.LimitedReader` yields `io.EOF`
once its budget or the underlying stream is exhausted); with no open
section return `os.ErrNotExist`.  None of the errors produced here are
stuck. -/
def readR (r : ReaderState) (n : Nat) : ReaderState × Except ArError (List Nat) :=
  match r.err with
  | some e => (r, .error e)
  | none =>
    if r.sectionOpen then
      if r.sectionN ≤ 0 then (r, .error .eof)
      else
        match r.stream with
        | [] => (r, .error .eof)
        | _ =>
          let k := min n (min r.sectionN.toNat r.stream.length)
          ({ r with stream := r.stream.drop k, sectionN := r.sectionN - k },
            .ok (r.stream.take k))
    else (r, .error .notExist)

/-! ### Archive Writer -/

/-- State of `Writer`: the bytes handed to the buffered sink so far, the
sticky error, and the `valid` flag (global magic already emitted).  A list
sink never fails, so the `bufio` write/flush error branches of the source
are dead here (as they are for Go's `bytes.Buffer`). -/
structure WriterState where
  out : List Nat
  err : Option ArError
  valid : Bool
deriving DecidableEq, Repr

/-- `NewWriter(w)`. -/
def newWriter : WriterState := { out := [], err := none, valid := false }

/-- `Writer.writeArchiveHeader`: emit the global magic once. -/
def writeArchiveHeader (w : WriterState) : WriterState × Nat :=
  if w.valid then (w, 0)
  else ({ w with out := w.out ++ magicBytes, valid := true }, magicBytes.length)

/-- `Writer.WriteFile(meta, r)` with the payload source modelled as the
byte list it will yield before end-of-data: short-circuit on the sticky
error; emit the magic and the 60-byte header; `io.CopyN` exactly
`meta.size` bytes (a short source makes `CopyN` report `io.EOF`, which is
stuck); append the `'\n'` padding byte when the bytes written by this call
are odd in number; flush (infallible here).  Returns the new state, the
written byte count, and the error. -/
def writeFileBody (w1 : WriterState) (n1 : Nat) (meta : FileInfo) (payload : List Nat) :
    WriterState × Nat × Option ArError :=
  -- `w1` is the writer after the magic was emitted, `n1` the bytes that took.
  match writeFileHeader meta with
  | .error e => ({ w1 with err := some e }, n1, some e)
  | .ok h =>
    let w2 := { w1 with out := w1.out ++ h }
    let k := min meta.size.toNat payload.length
    let w3 := { w2 with out := w2.out ++ payload.take k }
    let written := n1 + h.length + k
    if (k : Int) < meta.size then ({ w3 with err := some .eof }, written, some .eof)
    else if written % 2 = 1 then
      ({ w3 with out := w3.out ++ [10], err := none }, written + 1, none)
    else ({ w3 with err := none }, written, none)

/-- `Writer.WriteFile`: short-circuit on the sticky error, emit the magic
once, then run `writeFileBody`. -/
def writeFile (w : WriterState) (meta : FileInfo) (payload : List Nat) :
    WriterState × Nat × Option ArError :=
  match w.err with
  | some e => (w, 0, some e)
  | none => writeFileBody (writeArchiveHeader w).1 (writeArchiveHeader w).2 meta payload

/-- Modelled from the spec: `Writer.Reset(newStream)` (spec §4.4) is
declared by the spec — "same semantics as Reader.Reset, for the writer
side" — and is invoked by the repository's writer benchmark, but no
implementation is present under src/.  Following the spec's words it
cancels all internal state and buffering and binds the writer to the new
(empty) sink. -/
def resetWriter (w : WriterState) : WriterState :=
  { w with out := [], err := none, valid := false }

/-- Run a list of `WriteFile` calls in order on a writer. -/
def runWrites (w : WriterState) : List (FileInfo × List Nat) → WriterState
  | [] => w
  | (m, p) :: rest => runWrites (writeFile w m p).1 rest

/-! ### Concrete fixtures used by counterexamples and witnesses -/

/-- 60-byte header of an entry named `"a"`, mode `0644`, size 1, mtime 0. -/
def demoHeaderA : List Nat := (writeFileHeader ⟨[97], 0o644, 1, 0⟩).toOption.getD []

/-- 60-byte header of an entry named `"b"`, mode `0644`, size 0, mtime 0. -/
def demoHeaderB : List Nat := (writeFileHeader ⟨[98], 0o644, 0, 0⟩).toOption.getD []

/-- A well-formed two-entry archive whose first entry has the odd size 1:
magic, header of `"a"`, payload `"X"`, one padding byte, header of `"b"`. -/
def demoArchive : List Nat := magicBytes ++ demoHeaderA ++ [88] ++ [10] ++ demoHeaderB

/-- A 60-byte header whose size field holds `"-4"` and whose other fields
are well formed (name `"a"`, mtime 0, owner 0, group 0, mode `644`). -/
def negSizeHeader : List Nat :=
  [97] ++ List.replicate 15 32 ++ ([48] ++ List.replicate 11 32) ++
    ([48] ++ List.replicate 5 32) ++ ([48] ++ List.replicate 5 32) ++
    ([54, 52, 52] ++ List.replicate 5 32) ++ ([45, 52] ++ List.replicate 8 32) ++ [96, 10]

end Ar

/-! ### Decidable equality on `Except`, for evaluating witnesses -/

instance {α β : Type} [DecidableEq α] [DecidableEq β] : DecidableEq (Except α β) := fun x y =>
  match x, y with
  | .ok a, .ok b =>
    if h : a = b then isTrue (by rw [h]) else isFalse (fun hc => by cases hc; exact h rfl)
  | .error a, .error b =>
    if h : a = b then isTrue (by rw [h]) else isFalse (fun hc => by cases hc; exact h rfl)
  | .ok _, .error _ => isFalse (fun hc => by cases hc)
  | .error _, .ok _ => isFalse (fun hc => by cases hc)

namespace Ar

/-! ### Claim C9: Reset restores the freshly-constructed state -/

/-- Claim C9: after `Reset(newStream)` a Reader or Writer is in exactly the
state of a freshly constructed instance bound to the new stream — no sticky
error, magic flag cleared, no open section — so every subsequent operation
sequence behaves as on a new instance.  (The writer side is modelled from
the spec, `Writer.Reset` being absent from src/.) -/
theorem reset_equals_fresh :
    (∀ (r : ReaderState) (s : List Nat), resetReader r s = newReader s)
    ∧ (∀ w : WriterState, resetWriter w = newWriter) :=
  ⟨fun _ _ => rfl, fun _ => rfl⟩

/-! ### Claim C6: global magic check -/

/-- Claim C6: `checkMagic` reads exactly 8 bytes; an empty stream yields the
end-of-stream signal unchanged, a 1–7 byte stream yields the unexpected
end-of-stream signal unchanged, 8 bytes differing from the magic yield
`CorruptArchive("global archive header not found")`, and the exact magic
succeeds with the stream advanced by exactly 8 bytes. -/
theorem checkMagic_cases :
    (∀ s : List Nat, s = [] → checkMagic s = .error .eof)
    ∧ (∀ s : List Nat, 1 ≤ s.length → s.length < 8 → checkMagic s = .error .unexpectedEof)
    ∧ (∀ s : List Nat, 8 ≤ s.length → s.take 8 ≠ magicBytes →
        checkMagic s = .error (.corrupt "global archive header not found"))
    ∧ (∀ s : List Nat, s.take 8 = magicBytes → checkMagic s = .ok (s.drop 8)) := by
  have hm : magicBytes.length = 8 := rfl
  refine ⟨?_, ?_, ?_, ?_⟩
  · intro s hs
    subst hs
    rfl
  · intro s h1 h8
    simp only [checkMagic, hm, readFull]
    rw [if_neg (by omega), if_neg (by omega)]
  · intro s h8 hne
    simp only [checkMagic, hm, readFull]
    rw [if_pos (by omega)]
    exact if_neg hne
  · intro s htake
    have h8 : 8 ≤ s.length := by
      have := congrArg List.length htake
      simp only [List.length_take, magicBytes, List.length_cons, List.length_nil] at this
      omega
    simp only [checkMagic, hm, readFull]
    rw [if_pos (by omega)]
    exact if_pos htake

/-- Witness for C6 at concrete streams: the empty stream, a 1-byte stream,
a wrong 8-byte stream, and the exact magic followed by one byte. -/
theorem checkMagic_cases_witness :
    checkMagic [] = .error .eof
    ∧ checkMagic [33] = .error .unexpectedEof
    ∧ checkMagic [97, 97, 97, 97, 97, 97, 97, 97] =
        .error (.corrupt "global archive header not found")
    ∧ checkMagic (magicBytes ++ [88]) = .ok [88] := by
  refine ⟨checkMagic_cases.1 [] rfl, ?_, ?_, ?_⟩
  · exact checkMagic_cases.2.1 [33] (by decide) (by decide)
  · exact checkMagic_cases.2.2.1 [97, 97, 97, 97, 97, 97, 97, 97] (by decide) (by decide)
  · have := checkMagic_cases.2.2.2 (magicBytes ++ [88]) (by decide)
    simpa using this

/-! ### Claim C5: mode decoding policy -/

/-- Claim C5: the mode field is parsed as an unsigned octal integer; a bit
outside the permission or file-type bits yields
`CorruptArchive("invalid file mode")`; a file type other than unset or
regular yields `NotImplemented("non-regular files")`; otherwise exactly the
permission bits come back.  Concretely, encoded `0100644` decodes to `0644`,
`0120644` is `NotImplemented`, `0220644` is `CorruptArchive`. -/
theorem parseFileMode_policy :
    (∀ (s : List Nat) (m : Nat), parseUint 8 32 s = .ok m → m ≠ m &&& 0o170777 →
        parseFileMode s = .error (.corrupt "invalid file mode"))
    ∧ (∀ (s : List Nat) (m : Nat), parseUint 8 32 s = .ok m → m = m &&& 0o170777 →
        m &&& 0o170000 ≠ 0 → m &&& 0o170000 ≠ 0o100000 →
        parseFileMode s = .error (.notImplemented "non-regular files"))
    ∧ (∀ (s : List Nat) (m : Nat), parseUint 8 32 s = .ok m → m = m &&& 0o170777 →
        (m &&& 0o170000 = 0 ∨ m &&& 0o170000 = 0o100000) →
        parseFileMode s = .ok (m &&& 0o777))
    ∧ parseFileMode (formatNat 8 0o100644) = .ok 0o644
    ∧ parseFileMode (formatNat 8 0o120644) = .error (.notImplemented "non-regular files")
    ∧ parseFileMode (formatNat 8 0o220644) = .error (.corrupt "invalid file mode") := by
  refine ⟨?_, ?_, ?_, by decide, by decide, by decide⟩
  · intro s m hok hne
    simp only [parseFileMode, hok, if_pos hne]
  · intro s m hok heq h0 hreg
    simp only [parseFileMode, hok]
    rw [if_neg (by exact fun hc => hc heq), if_neg (by rintro (hc | hc) <;> [exact h0 hc; exact hreg hc])]
  · intro s m hok heq hty
    simp only [parseFileMode, hok]
    rw [if_neg (by exact fun hc => hc heq), if_pos hty]

/-- Witness for C5: the three general cases applied at the concrete encoded
modes `0220644`, `0120644` and `0100644`. -/
theorem parseFileMode_policy_witness :
    parseFileMode (formatNat 8 0o220644) = .error (.corrupt "invalid file mode")
    ∧ parseFileMode (formatNat 8 0o120644) = .error (.notImplemented "non-regular files")
    ∧ parseFileMode (formatNat 8 0o100644) = .ok (0o100644 &&& 0o777) := by
  refine ⟨?_, ?_, ?_⟩
  · exact parseFileMode_policy.1 _ 0o220644 (by decide) (by decide)
  · exact parseFileMode_policy.2.1 _ 0o120644 (by decide) (by decide) (by decide) (by decide)
  · exact parseFileMode_policy.2.2.1 _ 0o100644 (by decide) (by decide) (by decide)

/-! ### Claim C2: Next over an undrained payload section (code bug) -/

set_option maxRecDepth 8000 in
/-- Claim C2 (code bug): on `demoArchive` the first `Next` returns the first
entry, but a second `Next` called without draining the 1-byte payload
returns `CorruptArchive("per file magic not found")` instead of the second
entry: `flush_section` returns as soon as it has discarded the unread
payload bytes, skipping the padding-byte step, so the 60-byte header read
starts one byte early, on the padding byte. -/
theorem next_undrained_misaligned :
    (next (newReader demoArchive)).2 = .ok ⟨[97], 0o644, 1, 0⟩
    ∧ (next (next (newReader demoArchive)).1).2 =
        .error (.corrupt "per file magic not found") := by
  constructor <;> decide

/-! ### Claim C8: invariant of a successful header decode -/

/-- Counterexample to C8 as stated: `negSizeHeader` decodes successfully to
a metadata record whose size is the negative value `-4`, because the size
field is parsed with the signed `strconv.ParseInt` and never checked. -/
theorem parseFileHeader_negative_size :
    parseFileHeader negSizeHeader = .ok ⟨[97], 0o644, -4, 0⟩ ∧ ¬ ((0 : Int) ≤ -4) := by
  constructor <;> decide

lemma trimSpace_length_le (l : List Nat) : (trimSpace l).length ≤ l.length := by
  unfold trimSpace
  have h1 : ((l.dropWhile isSpaceB).reverse.dropWhile isSpaceB).length ≤
      (l.dropWhile isSpaceB).reverse.length := (List.dropWhile_suffix _).length_le
  have h2 : (l.dropWhile isSpaceB).length ≤ l.length := (List.dropWhile_suffix _).length_le
  simp only [List.length_reverse] at h1 ⊢
  omega

lemma parseFileMode_ok_shape (s : List Nat) (m : Nat) (h : parseFileMode s = .ok m) :
    ∃ mm, m = mm &&& 0o777 := by
  unfold parseFileMode at h
  cases hpu : parseUint 8 32 s with
  | error e => rw [hpu] at h; exact Except.noConfusion h
  | ok mode =>
    rw [hpu] at h
    dsimp only at h
    split at h
    · exact Except.noConfusion h
    · split at h
      · injection h with h1
        exact ⟨mode, h1.symm⟩
      · exact Except.noConfusion h

/-- Claim C8 (amended): every entry metadata returned by a successful
60-byte header decode has a mode containing only permission bits and a
(whitespace-trimmed) name of at most 16 bytes.  The size field, parsed by
the signed `strconv.ParseInt` and never checked, may be negative — see the
counterexample. -/
theorem parseFileHeader_ok_invariant :
    ∀ (h : List Nat) (fi : FileInfo), parseFileHeader h = .ok fi →
      fi.mode ≤ 0o777 ∧ fi.name.length ≤ 16 := by
  intro h fi hok
  unfold parseFileHeader at hok
  split at hok
  · exact Except.noConfusion hok
  · split at hok
    · exact Except.noConfusion hok
    · dsimp only at hok
      cases h1 : parseInt 10 64 (trimSpace ((h.drop 16).take 12)) with
      | error e => rw [h1] at hok; exact Except.noConfusion hok
      | ok secs =>
        rw [h1] at hok
        cases h2 : parseFileMode (trimSpace ((h.drop 40).take 8)) with
        | error e => rw [h2] at hok; exact Except.noConfusion hok
        | ok fm =>
          rw [h2] at hok
          cases h3 : parseInt 10 64 (trimSpace ((h.drop 48).take 10)) with
          | error e => rw [h3] at hok; exact Except.noConfusion hok
          | ok sz =>
            rw [h3] at hok
            injection hok with h4
            subst h4
            constructor
            · obtain ⟨mm, hmm⟩ := parseFileMode_ok_shape _ _ h2
              show fm ≤ 0o777
              rw [hmm]
              exact Nat.and_le_right
            · show (trimSpace (h.take 16)).length ≤ 16
              have h5 := trimSpace_length_le (h.take 16)
              have h6 : (h.take 16).length ≤ 16 := by
                simp only [List.length_take]
                omega
              omega

set_option maxRecDepth 8000 in
/-- Witness for C8 (amended) at the concrete header of entry `"a"`. -/
theorem parseFileHeader_ok_invariant_witness :
    (0o644 : Nat) ≤ 0o777 ∧ ([97] : List Nat).length ≤ 16 :=
  parseFileHeader_ok_invariant demoHeaderA ⟨[97], 0o644, 1, 0⟩ (by decide)

/-! ### Claim C3: sticky errors -/

lemma nextHeader_error_sticks (r r2 : ReaderState) (e : ArError)
    (h : nextHeader r = (r2, .error e)) : r2.err = some e := by
  unfold nextHeader at h
  repeat' split at h
  all_goals rw [Prod.mk.injEq] at h
  all_goals obtain ⟨h1, h2⟩ := h
  all_goals
    first
    | exact Except.noConfusion h2
    | (injection h2 with h3
       subst h3
       subst h1
       simp_all)

lemma nextBody_error_sticks (r r2 : ReaderState) (e : ArError)
    (h : nextBody r = (r2, .error e)) : r2.err = some e := by
  unfold nextBody at h
  split at h
  · rw [Prod.mk.injEq] at h
    obtain ⟨h1, h2⟩ := h
    injection h2 with h3
    subst h3
    subst h1
    rfl
  · exact nextHeader_error_sticks _ _ _ h

lemma next_error_sticks (r r2 : ReaderState) (e : ArError) (h : next r = (r2, .error e)) :
    r2.err = some e := by
  unfold next at h
  split at h
  · rw [Prod.mk.injEq] at h
    obtain ⟨h1, h2⟩ := h
    injection h2 with h3
    subst h3
    subst h1
    simp_all
  · split at h
    · rw [Prod.mk.injEq] at h
      obtain ⟨h1, h2⟩ := h
      injection h2 with h3
      subst h3
      subst h1
      rfl
    · exact nextBody_error_sticks _ _ _ h

lemma writeFileBody_error_sticks (w1 : WriterState) (n1 : Nat) (meta : FileInfo)
    (p : List Nat) (w2 : WriterState) (k : Nat) (e : ArError)
    (h : writeFileBody w1 n1 meta p = (w2, k, some e)) : w2.err = some e := by
  unfold writeFileBody at h
  dsimp only at h
  split at h
  · rw [Prod.mk.injEq, Prod.mk.injEq] at h
    obtain ⟨h1, h2, h3⟩ := h
    injection h3 with h4
    subst h4
    subst h1
    rfl
  · split at h
    · rw [Prod.mk.injEq, Prod.mk.injEq] at h
      obtain ⟨h1, h2, h3⟩ := h
      injection h3 with h4
      subst h4
      subst h1
      rfl
    · split at h
      · rw [Prod.mk.injEq, Prod.mk.injEq] at h
        obtain ⟨h1, h2, h3⟩ := h
        exact Option.noConfusion h3
      · rw [Prod.mk.injEq, Prod.mk.injEq] at h
        obtain ⟨h1, h2, h3⟩ := h
        exact Option.noConfusion h3

lemma writeFile_error_sticks (w w2 : WriterState) (meta : FileInfo) (p : List Nat) (k : Nat)
    (e : ArError) (h : writeFile w meta p = (w2, k, some e)) : w2.err = some e := by
  unfold writeFile at h
  split at h
  · rw [Prod.mk.injEq, Prod.mk.injEq] at h
    obtain ⟨h1, h2, h3⟩ := h
    injection h3 with h4
    subst h4
    subst h1
    simp_all
  · exact writeFileBody_error_sticks _ _ _ _ _ _ _ h

/-- Claim C3 (amended): every error returned by `Next` or `WriteFile` is
latched into the instance, and while the sticky error is set every
operation on that instance returns exactly that error with the state (and
hence the underlying stream position) untouched, until `Reset` clears it.
(Errors returned by `Read` itself — the end-of-payload signal and the
no-active-entry `os.ErrNotExist` — are not latched; see the
counterexample.) -/
theorem sticky_error_latched :
    (∀ (r : ReaderState) (e : ArError) (n : Nat), r.err = some e →
        next r = (r, .error e) ∧ readR r n = (r, .error e))
    ∧ (∀ (r r2 : ReaderState) (e : ArError), next r = (r2, .error e) → r2.err = some e)
    ∧ (∀ (w : WriterState) (meta : FileInfo) (p : List Nat) (e : ArError), w.err = some e →
        writeFile w meta p = (w, 0, some e))
    ∧ (∀ (w w2 : WriterState) (meta : FileInfo) (p : List Nat) (k : Nat) (e : ArError),
        writeFile w meta p = (w2, k, some e) → w2.err = some e)
    ∧ (∀ (r : ReaderState) (s : List Nat), (resetReader r s).err = none)
    ∧ (∀ w : WriterState, (resetWriter w).err = none) := by
  refine ⟨?_, next_error_sticks, ?_, writeFile_error_sticks, fun _ _ => rfl, fun _ => rfl⟩
  · intro r e n h
    constructor
    · unfold next
      rw [h]
    · unfold readR
      rw [h]
  · intro w meta p e h
    unfold writeFile
    rw [h]

/-- Witness for C3 at a concrete errored reader and writer. -/
theorem sticky_error_latched_witness :
    next ⟨[], false, some .eof, false, 0⟩ = (⟨[], false, some .eof, false, 0⟩, .error .eof)
    ∧ writeFile ⟨[], some .eof, false⟩ ⟨[97], 0o644, 1, 0⟩ [88] =
        (⟨[], some .eof, false⟩, 0, some .eof) :=
  ⟨(sticky_error_latched.1 ⟨[], false, some .eof, false, 0⟩ .eof 0 rfl).1,
   sticky_error_latched.2.2.1 ⟨[], some .eof, false⟩ ⟨[97], 0o644, 1, 0⟩ [88] .eof rfl⟩

set_option maxRecDepth 8000 in
/-- Counterexample to C3 as stated: on `demoArchive`, `Read` called before
any `Next` returns the error `os.ErrNotExist`, yet the next operation does
not return that error — the subsequent `Next` succeeds, because `Read`
does not latch the errors it generates. -/
theorem read_error_not_sticky :
    (readR (newReader demoArchive) 1).2 = .error .notExist
    ∧ (next (readR (newReader demoArchive) 1).1).2 = .ok ⟨[97], 0o644, 1, 0⟩ := by
  constructor <;> decide

/-! ### Claim C10: the internal panics are unreachable through the public interface -/

/-- A sticky-error slot that does not hold a panic marker. -/
def noPanicErr : Option ArError → Prop
  | some (.panicked _) => False
  | _ => True

/-- Reader states reachable through the public interface: construction,
`Next`, `Read`, `Reset`. -/
inductive Reach : ReaderState → Prop where
  | base (s : List Nat) : Reach (newReader s)
  | stepNext {r : ReaderState} : Reach r → Reach (next r).1
  | stepRead {r : ReaderState} (n : Nat) : Reach r → Reach (readR r n).1
  | stepReset {r : ReaderState} (s : List Nat) : Reach r → Reach (resetReader r s)

lemma readFull_errors (s : List Nat) (n : Nat) (e : ArError)
    (h : readFull s n = .error e) : e = .eof ∨ e = .unexpectedEof := by
  unfold readFull at h
  split at h
  · exact Except.noConfusion h
  · split at h
    · injection h with h1
      exact Or.inl h1.symm
    · injection h with h1
      exact Or.inr h1.symm

lemma checkMagic_not_panicked (s : List Nat) (m : String) :
    checkMagic s ≠ .error (.panicked m) := by
  unfold checkMagic
  cases hrf : readFull s magicBytes.length with
  | error e =>
    simp only [hrf]
    rcases readFull_errors _ _ _ hrf with h1 | h1 <;> subst h1 <;> simp
  | ok pr =>
    obtain ⟨m1, rest⟩ := pr
    simp only [hrf]
    split <;> simp

lemma parseFileMode_not_panicked (s : List Nat) (m : String) :
    parseFileMode s ≠ .error (.panicked m) := by
  unfold parseFileMode
  cases hpu : parseUint 8 32 s with
  | error e => simp only [hpu]; cases e <;> simp [uintErrMsg]
  | ok mode =>
    simp only [hpu]
    split
    · simp
    · split <;> simp

lemma parseFileHeader_not_panicked (h : List Nat) (hl : h.length = 60) (m : String) :
    parseFileHeader h ≠ .error (.panicked m) := by
  unfold parseFileHeader
  rw [if_neg (by omega)]
  split
  · simp
  · cases h1 : parseInt 10 64 (trimSpace ((h.drop 16).take 12)) with
    | error e => simp only [h1]; simp
    | ok secs =>
      simp only [h1]
      cases h2 : parseFileMode (trimSpace ((h.drop 40).take 8)) with
      | error e =>
        simp only [h2]
        intro hc
        injection hc with hc2
        subst hc2
        exact parseFileMode_not_panicked _ m h2
      | ok filemode =>
        simp only [h2]
        cases h3 : parseInt 10 64 (trimSpace ((h.drop 48).take 10)) with
        | error e => simp only [h3]; simp
        | ok filesize => simp only [h3]; simp

lemma readFull_ok_length (s : List Nat) (n : Nat) (h rest : List Nat)
    (hok : readFull s n = .ok (h, rest)) : h.length = n := by
  unfold readFull at hok
  split at hok
  · injection hok with h1
    rw [Prod.mk.injEq] at h1
    obtain ⟨h2, h3⟩ := h1
    subst h2
    simp only [List.length_take]
    omega
  · split at hok <;> exact Except.noConfusion hok

lemma flush_section_no_panic (r : ReaderState) (ho : r.sectionOpen = true)
    (he : noPanicErr r.err) :
    (∀ m, (flush_section r).2 ≠ some (.panicked m))
    ∧ noPanicErr (flush_section r).1.err := by
  unfold flush_section
  simp only [ho]
  repeat' split <;> simp_all [noPanicErr]

lemma nextHeader_no_panic (r : ReaderState) (he : noPanicErr r.err) :
    (∀ m, (nextHeader r).2 ≠ .error (.panicked m)) ∧ noPanicErr (nextHeader r).1.err := by
  unfold nextHeader
  cases hrf : readFull r.stream 60 with
  | error e =>
    simp only [hrf]
    rcases readFull_errors _ _ _ hrf with h1 | h1 <;> subst h1 <;>
      exact ⟨by simp, by simp [noPanicErr]⟩
  | ok pr =>
    obtain ⟨hbytes, rest⟩ := pr
    have hlen : hbytes.length = 60 := readFull_ok_length _ _ _ _ hrf
    simp only [hrf]
    cases hph : parseFileHeader hbytes with
    | error e =>
      have hnp : ∀ m, e ≠ .panicked m := by
        intro m hc
        subst hc
        exact parseFileHeader_not_panicked _ hlen m hph
      simp only [hph]
      refine ⟨fun m hc => ?_, ?_⟩
      · injection hc with hc2
        exact hnp m hc2
      · cases e <;> simp_all [noPanicErr]
    | ok fi =>
      simp only [hph]
      exact ⟨by simp, by simpa [noPanicErr] using he⟩

lemma nextBody_no_panic (r : ReaderState) (he : noPanicErr r.err) :
    (∀ m, (nextBody r).2 ≠ .error (.panicked m)) ∧ noPanicErr (nextBody r).1.err := by
  unfold nextBody
  cases ho : r.sectionOpen with
  | false => exact nextHeader_no_panic r he
  | true =>
    have hfl := flush_section_no_panic r ho he
    cases hf : flush_section r with
    | mk r2 o =>
      rw [hf] at hfl
      cases o with
      | some e =>
        have he2 : ∀ m, e ≠ .panicked m := fun m hc => hfl.1 m (by rw [hc])
        refine ⟨fun m hc => ?_, ?_⟩
        · injection hc with hc2
          exact he2 m hc2
        · show noPanicErr (some e)
          cases e <;> first | trivial | exact absurd rfl (he2 _)
      | none => exact nextHeader_no_panic r2 hfl.2

lemma next_no_panic (r : ReaderState) (he : noPanicErr r.err) :
    (∀ m, (next r).2 ≠ .error (.panicked m)) ∧ noPanicErr (next r).1.err := by
  unfold next
  cases herr : r.err with
  | some e =>
    rw [herr] at he
    refine ⟨fun m hc => ?_, ?_⟩
    · injection hc with hc2
      subst hc2
      exact he
    · show noPanicErr r.err
      rw [herr]
      exact he
  | none =>
    cases hm : (if r.valid = true then Except.ok r.stream else checkMagic r.stream :
        Except ArError (List Nat)) with
    | error e =>
      have he2 : ∀ m2, e ≠ .panicked m2 := by
        intro m2 hc
        subst hc
        cases hv : r.valid
        · rw [hv] at hm
          simp only [Bool.false_eq_true, if_neg, ite_false] at hm
          exact checkMagic_not_panicked _ m2 hm
        · rw [hv] at hm
          simp at hm
      refine ⟨fun m hc => ?_, ?_⟩
      · injection hc with hc2
        exact he2 m hc2
      · show noPanicErr (some e)
        cases e <;> first | trivial | exact absurd rfl (he2 _)
    | ok s1 => exact nextBody_no_panic _ trivial

lemma readR_no_panic (r : ReaderState) (n : Nat) (he : noPanicErr r.err) :
    (∀ m, (readR r n).2 ≠ .error (.panicked m)) ∧ noPanicErr (readR r n).1.err := by
  unfold readR
  cases herr : r.err with
  | some e =>
    rw [herr] at he
    refine ⟨fun m hc => ?_, ?_⟩
    · injection hc with hc2
      subst hc2
      exact he
    · show noPanicErr r.err
      rw [herr]
      exact he
  | none =>
    repeat' split
    all_goals refine ⟨fun m hc => ?_, ?_⟩
    all_goals
      first
      | contradiction
      | (injection hc with hc2
         exact ArError.noConfusion hc2)
      | exact Except.noConfusion hc
      | (show noPanicErr none
         trivial)
      | (show noPanicErr r.err
         rw [herr]
         trivial)

lemma reach_no_panic {r : ReaderState} (h : Reach r) : noPanicErr r.err := by
  induction h with
  | base s => trivial
  | stepNext _ ih => exact (next_no_panic _ ih).2
  | stepRead n _ ih => exact (readR_no_panic _ n ih).2
  | stepReset s _ _ => trivial

/-- Claim C10: no sequence of public Reader operations can reach the two
internal panics — `Next` only hands `parseFileHeader` blocks of exactly 60
bytes and only calls `flush_section` while a section is open, so from any
reachable state neither `Next` nor `Read` can produce the panic outcome. -/
theorem public_ops_no_panic : ∀ r : ReaderState, Reach r → ∀ (n : Nat) (m : String),
    (next r).2 ≠ .error (.panicked m) ∧ (readR r n).2 ≠ .error (.panicked m) :=
  fun r h n m =>
    ⟨(next_no_panic r (reach_no_panic h)).1 m, (readR_no_panic r n (reach_no_panic h)).1 m⟩

/-! ### Writer helper lemmas (for C7 and C4) -/

lemma copyAt_length (h : List Nat) (i : Nat) (s : List Nat) :
    (copyAt h i s).length = h.length := by
  simp only [copyAt, List.length_append, List.length_take, List.length_drop]
  omega

set_option maxHeartbeats 1000000 in
lemma writeFileHeader_ok_length (meta : FileInfo) (h : List Nat)
    (hok : writeFileHeader meta = .ok h) : h.length = 60 := by
  unfold writeFileHeader at hok
  split at hok
  · exact Except.noConfusion hok
  · injection hok with h1
    subst h1
    simp only [copyAt_length, List.length_replicate]

lemma writeFile_eq_body (w : WriterState) (meta : FileInfo) (p : List Nat)
    (hw : w.err = none) :
    writeFile w meta p = writeFileBody (writeArchiveHeader w).1 (writeArchiveHeader w).2 meta p := by
  unfold writeFile
  rw [hw]

lemma writeArchiveHeader_valid (w : WriterState) (hv : w.valid = true) :
    writeArchiveHeader w = (w, 0) := by
  simp [writeArchiveHeader, hv]

lemma writeArchiveHeader_not_valid (w : WriterState) (hv : w.valid = false) :
    writeArchiveHeader w = ({ w with out := w.out ++ magicBytes, valid := true }, 8) := by
  simp [writeArchiveHeader, hv]
  rfl

lemma writeFileBody_short (w1 : WriterState) (n1 : Nat) (meta : FileInfo)
    (payload h : List Nat) (hok : writeFileHeader meta = .ok h)
    (hlt : (payload.length : Int) < meta.size) :
    writeFileBody w1 n1 meta payload =
      ({ w1 with out := w1.out ++ h ++ payload, err := some .eof },
        (n1 + h.length + payload.length, some .eof)) := by
  unfold writeFileBody
  rw [hok]
  have hk : meta.size.toNat ⊓ payload.length = payload.length := by omega
  dsimp only
  rw [hk, if_pos hlt, List.take_length]

lemma writeFileBody_success (w1 : WriterState) (n1 : Nat) (meta : FileInfo)
    (payload : List Nat) (w2 : WriterState) (k : Nat)
    (h : writeFileBody w1 n1 meta payload = (w2, k, none)) :
    ∃ hdr, writeFileHeader meta = .ok hdr ∧
      meta.size.toNat ⊓ payload.length = meta.size.toNat ∧
      w2.out = w1.out ++ hdr ++ payload.take meta.size.toNat ++
        (if (n1 + hdr.length + meta.size.toNat) % 2 = 1 then [10] else []) ∧
      w2.err = none ∧ w2.valid = w1.valid ∧ hdr.length = 60 := by
  unfold writeFileBody at h
  cases hok : writeFileHeader meta with
  | error e =>
    rw [hok] at h
    rw [Prod.mk.injEq, Prod.mk.injEq] at h
    exact Option.noConfusion h.2.2
  | ok hdr =>
    rw [hok] at h
    dsimp only at h
    split at h
    · rw [Prod.mk.injEq, Prod.mk.injEq] at h
      exact Option.noConfusion h.2.2
    · rename_i hge
      have hk : meta.size.toNat ⊓ payload.length = meta.size.toNat := by omega
      rw [hk] at h
      split at h
      · rename_i hodd
        rw [Prod.mk.injEq, Prod.mk.injEq] at h
        obtain ⟨h1, h2, h3⟩ := h
        subst h1
        refine ⟨hdr, rfl, hk, ?_, rfl, rfl, writeFileHeader_ok_length _ _ hok⟩
        rw [if_pos hodd]
      · rename_i hodd
        rw [Prod.mk.injEq, Prod.mk.injEq] at h
        obtain ⟨h1, h2, h3⟩ := h
        subst h1
        refine ⟨hdr, rfl, hk, ?_, rfl, rfl, writeFileHeader_ok_length _ _ hok⟩
        rw [if_neg hodd]
        simp

/-! ### Claim C7: a short payload source is an error, never padded over -/

/-- Header used by the C7 witness: name `"f"`, mode `0644`, size 10, mtime 0. -/
def demoShortHeader : List Nat := (writeFileHeader ⟨[102], 0o644, 10, 0⟩).toOption.getD []

/-- Claim C7: when the payload source yields fewer bytes than the declared
size, `WriteFile` returns an error (`io.EOF` from `io.CopyN`), that error
becomes the sticky error, and the output receives exactly the magic, the
header and the bytes the source really yielded — the missing bytes are
never invented and no padding is appended. -/
theorem writeFile_short_payload :
    ∀ (w : WriterState) (meta : FileInfo) (payload h : List Nat),
      w.err = none → writeFileHeader meta = .ok h →
      (payload.length : Int) < meta.size →
      writeFile w meta payload =
        ({ out := w.out ++ (if w.valid then [] else magicBytes) ++ h ++ payload,
           err := some .eof, valid := true },
          ((if w.valid then 0 else 8) + h.length + payload.length, some .eof)) := by
  intro w meta payload h hw hok hlt
  rw [writeFile_eq_body w meta payload hw]
  cases hv : w.valid with
  | true =>
    rw [writeArchiveHeader_valid w hv]
    rw [writeFileBody_short w 0 meta payload h hok hlt]
    simp [hv]
  | false =>
    rw [writeArchiveHeader_not_valid w hv]
    rw [writeFileBody_short _ 8 meta payload h hok hlt]
    simp [List.append_assoc]

set_option maxRecDepth 8000 in
/-- Witness for C7: writing an entry of declared size 10 from a source
yielding only 8 bytes on a fresh writer. -/
theorem writeFile_short_payload_witness :
    writeFile newWriter ⟨[102], 0o644, 10, 0⟩ [49, 50, 51, 52, 53, 54, 55, 56] =
      ({ out := newWriter.out ++ (if newWriter.valid then [] else magicBytes) ++
            demoShortHeader ++ [49, 50, 51, 52, 53, 54, 55, 56],
         err := some .eof, valid := true },
        ((if newWriter.valid then 0 else 8) + demoShortHeader.length +
          ([49, 50, 51, 52, 53, 54, 55, 56] : List Nat).length, some .eof)) :=
  writeFile_short_payload newWriter ⟨[102], 0o644, 10, 0⟩ [49, 50, 51, 52, 53, 54, 55, 56]
    demoShortHeader rfl (by decide) (by decide)

/-! ### Claim C4: padding parity -/

lemma writeFile_success_shape (w : WriterState) (meta : FileInfo) (payload : List Nat)
    (w2 : WriterState) (k : Nat) (hw : w.err = none)
    (h : writeFile w meta payload = (w2, k, none)) :
    ∃ hdr, writeFileHeader meta = .ok hdr ∧ hdr.length = 60 ∧
      meta.size.toNat ⊓ payload.length = meta.size.toNat ∧
      w2.out = w.out ++ (if w.valid then [] else magicBytes) ++ hdr ++
          payload.take meta.size.toNat ++
          (if ((if w.valid then 0 else 8) + hdr.length + meta.size.toNat) % 2 = 1
            then [10] else []) ∧
      w2.err = none ∧ w2.valid = true := by
  rw [writeFile_eq_body w meta payload hw] at h
  cases hv : w.valid with
  | true =>
    rw [writeArchiveHeader_valid w hv] at h
    obtain ⟨hdr, hok, hk, hout, herr2, hval, hlen⟩ := writeFileBody_success _ _ _ _ _ _ h
    refine ⟨hdr, hok, hlen, hk, ?_, herr2, by rw [hval, hv]⟩
    rw [hout]
    simp
  | false =>
    rw [writeArchiveHeader_not_valid w hv] at h
    obtain ⟨hdr, hok, hk, hout, herr2, hval, hlen⟩ := writeFileBody_success _ _ _ _ _ _ h
    refine ⟨hdr, hok, hlen, hk, ?_, herr2, by rw [hval]⟩
    rw [hout]
    simp [List.append_assoc]

lemma magicBytes_length : magicBytes.length = 8 := rfl

lemma if_valid_length (b : Bool) :
    (if b = true then ([] : List Nat) else magicBytes).length = (if b = true then 0 else 8) := by
  cases b <;> simp [magicBytes_length]

lemma writeFile_success_even (w : WriterState) (meta : FileInfo) (payload : List Nat)
    (w2 : WriterState) (k : Nat) (hw : w.err = none) (heven : w.out.length % 2 = 0)
    (h : writeFile w meta payload = (w2, k, none)) : w2.out.length % 2 = 0 := by
  obtain ⟨hdr, hok, hlen, hk, hout, herr2, hval⟩ := writeFile_success_shape w meta payload w2 k hw h
  rw [hout]
  simp only [List.length_append, List.length_take, apply_ite List.length,
    List.length_cons, List.length_nil, magicBytes_length]
  rw [hlen, hk]
  by_cases hodd : ((if w.valid = true then 0 else 8) + 60 + meta.size.toNat) % 2 = 1
  · rw [if_pos hodd]
    omega
  · rw [if_neg hodd]
    omega

lemma writeFile_sticky (w : WriterState) (meta : FileInfo) (p : List Nat) (e : ArError)
    (hw : w.err = some e) : writeFile w meta p = (w, 0, some e) := by
  unfold writeFile
  rw [hw]

lemma runWrites_sticky (calls : List (FileInfo × List Nat)) :
    ∀ (w : WriterState) (e : ArError), w.err = some e → runWrites w calls = w := by
  induction calls with
  | nil => intro w e _; rfl
  | cons c rest ih =>
    intro w e hw
    obtain ⟨m, p⟩ := c
    show runWrites (writeFile w m p).1 rest = w
    rw [writeFile_sticky w m p e hw]
    exact ih w e hw

lemma runWrites_even (calls : List (FileInfo × List Nat)) :
    ∀ w : WriterState, w.err = none → w.out.length % 2 = 0 →
      (runWrites w calls).err = none → (runWrites w calls).out.length % 2 = 0 := by
  induction calls with
  | nil => intro w _ h2 _; exact h2
  | cons c rest ih =>
    intro w hw heven hfin
    obtain ⟨m, p⟩ := c
    have hstep : runWrites w ((m, p) :: rest) = runWrites (writeFile w m p).1 rest := rfl
    cases hres : writeFile w m p with
    | mk w2 pr =>
      obtain ⟨k, oe⟩ := pr
      cases oe with
      | none =>
        obtain ⟨hdr, _, _, _, _, herr2, _⟩ := writeFile_success_shape w m p w2 k hw hres
        have hev2 := writeFile_success_even w m p w2 k hw heven hres
        rw [hstep, hres] at hfin ⊢
        exact ih w2 herr2 hev2 hfin
      | some e =>
        have hst : w2.err = some e := writeFile_error_sticks _ _ _ _ _ _ hres
        rw [hstep, hres] at hfin
        rw [runWrites_sticky rest w2 e hst, hst] at hfin
        exact Option.noConfusion hfin

/-- Claim C4: on a successful `WriteFile` from an error-free, evenly aligned
writer, the bytes appended are the (first-call) magic, the header, exactly
`size` payload bytes, and one `'\n'` exactly when the cumulative archive
offset would otherwise be odd; hence after every successful `WriteFile`
(and after any all-successful call sequence from a fresh writer) the total
output length is even, so every header begins at an even offset. -/
theorem padding_parity :
    (∀ (w : WriterState) (meta : FileInfo) (payload : List Nat) (w2 : WriterState) (k : Nat),
        w.err = none → w.out.length % 2 = 0 → writeFile w meta payload = (w2, k, none) →
        ∃ hdr body, writeFileHeader meta = .ok hdr ∧
          body = (if w.valid then [] else magicBytes) ++ hdr ++ payload.take meta.size.toNat ∧
          w2.out = w.out ++ body ++
            (if (w.out.length + body.length) % 2 = 1 then [10] else []) ∧
          w2.out.length % 2 = 0)
    ∧ (∀ calls : List (FileInfo × List Nat), (runWrites newWriter calls).err = none →
        (runWrites newWriter calls).out.length % 2 = 0) := by
  constructor
  · intro w meta payload w2 k hw heven hsucc
    obtain ⟨hdr, hok, hlen, hk, hout, herr2, hval⟩ :=
      writeFile_success_shape w meta payload w2 k hw hsucc
    refine ⟨hdr, (if w.valid then [] else magicBytes) ++ hdr ++ payload.take meta.size.toNat,
      hok, rfl, ?_, writeFile_success_even w meta payload w2 k hw heven hsucc⟩
    have hcond : ((w.out.length +
        ((if w.valid then [] else magicBytes) ++ hdr ++ payload.take meta.size.toNat).length) % 2
          = 1)
        ↔ (((if w.valid then 0 else 8) + hdr.length + meta.size.toNat) % 2 = 1) := by
      simp only [List.length_append, List.length_take, apply_ite List.length,
        List.length_nil, magicBytes_length]
      rw [hlen, hk]
      omega
    rw [hout, if_congr hcond rfl rfl]
    simp [List.append_assoc]
  · intro calls h
    exact runWrites_even calls newWriter rfl rfl h

set_option maxRecDepth 8000 in
/-- Witness for C4: one successful odd-sized write on a fresh writer (the
padding byte is emitted), plus the all-successful one-call sequence. -/
theorem padding_parity_witness :
    (∃ hdr body, writeFileHeader ⟨[97], 0o644, 1, 0⟩ = .ok hdr ∧
        body = (if newWriter.valid then [] else magicBytes) ++ hdr ++
          ([88] : List Nat).take ((⟨[97], 0o644, 1, 0⟩ : FileInfo)).size.toNat ∧
        (⟨magicBytes ++ demoHeaderA ++ [88, 10], none, true⟩ : WriterState).out =
          newWriter.out ++ body ++
            (if (newWriter.out.length + body.length) % 2 = 1 then [10] else []) ∧
        (⟨magicBytes ++ demoHeaderA ++ [88, 10], none, true⟩ : WriterState).out.length % 2 = 0)
    ∧ (runWrites newWriter [(⟨[97], 0o644, 1, 0⟩, [88])]).out.length % 2 = 0 :=
  ⟨padding_parity.1 newWriter ⟨[97], 0o644, 1, 0⟩ [88]
      ⟨magicBytes ++ demoHeaderA ++ [88, 10], none, true⟩ 70 rfl rfl (by decide),
   padding_parity.2 [(⟨[97], 0o644, 1, 0⟩, [88])] (by decide)⟩

/-! ### Claim C1: header round-trip.  Number formatting and parsing lemmas. -/

lemma digitsLE_eq (b : Nat) (hb : 2 ≤ b) :
    ∀ fuel n : Nat, n ≤ fuel → digitsLE b fuel n = Nat.digits b n := by
  intro fuel
  induction fuel with
  | zero =>
    intro n hn
    have : n = 0 := by omega
    subst this
    simp [digitsLE]
  | succ f ih =>
    intro n hn
    by_cases h0 : n = 0
    · subst h0
      simp [digitsLE]
    · have hdiv : n / b < n := Nat.div_lt_self (by omega) (by omega)
      rw [digitsLE, if_neg h0, ih (n / b) (by omega),
        Nat.digits_def' (by omega : 1 < b) (by omega : 0 < n)]

lemma formatNat_eq (b : Nat) (hb : 2 ≤ b) (n : Nat) :
    formatNat b n =
      if n = 0 then [48] else ((Nat.digits b n).reverse.map (fun d => 48 + d)) := by
  unfold formatNat
  rw [digitsLE_eq b hb n n le_rfl]

lemma formatNat_ne_nil (b : Nat) (hb : 2 ≤ b) (n : Nat) : formatNat b n ≠ [] := by
  rw [formatNat_eq b hb]
  by_cases h0 : n = 0
  · simp [h0]
  · rw [if_neg h0]
    simp only [ne_eq, List.map_eq_nil_iff, List.reverse_eq_nil_iff]
    exact Nat.digits_ne_nil_iff_ne_zero.2 h0

lemma formatNat_mem (b : Nat) (hb : 2 ≤ b) (n : Nat) :
    ∀ c ∈ formatNat b n, 48 ≤ c ∧ c < 48 + b := by
  rw [formatNat_eq b hb]
  by_cases h0 : n = 0
  · rw [if_pos h0]
    intro c hc
    simp only [List.mem_singleton] at hc
    omega
  · rw [if_neg h0]
    intro c hc
    simp only [List.mem_map, List.mem_reverse] at hc
    obtain ⟨d, hd, hcd⟩ := hc
    have := Nat.digits_lt_base (by omega : 1 < b) hd
    omega

lemma foldl_digits_reverse (b : Nat) :
    ∀ (l : List Nat) (v : Nat),
      List.foldl (fun a d => a * b + d) v l.reverse = v * b ^ l.length + Nat.ofDigits b l := by
  intro l
  induction l with
  | nil => intro v; simp [Nat.ofDigits_nil]
  | cons d t ih =>
    intro v
    rw [List.reverse_cons, List.foldl_concat, ih v, List.length_cons, Nat.ofDigits_cons,
      pow_succ]
    ring

lemma foldl_digits_ge (b : Nat) (hb : 1 ≤ b) :
    ∀ (l : List Nat) (acc : Nat), acc ≤ List.foldl (fun a c => a * b + (c - 48)) acc l := by
  intro l
  induction l with
  | nil => intro acc; exact le_rfl
  | cons c t ih =>
    intro acc
    have h1 : acc ≤ acc * b := Nat.le_mul_of_pos_right acc (by omega : 0 < b)
    calc acc ≤ acc * b + (c - 48) := by omega
    _ ≤ _ := ih (acc * b + (c - 48))

lemma parseUintAux_ok (b maxVal : Nat) (hb : 2 ≤ b) (hb10 : b ≤ 10) :
    ∀ (l : List Nat) (acc : Nat), (∀ c ∈ l, 48 ≤ c ∧ c < 48 + b) →
      List.foldl (fun a c => a * b + (c - 48)) acc l ≤ maxVal →
      parseUintAux b maxVal l acc = .ok (List.foldl (fun a c => a * b + (c - 48)) acc l) := by
  intro l
  induction l with
  | nil => intro acc _ _; rfl
  | cons c t ih =>
    intro acc hmem hle
    have hc := hmem c (List.mem_cons_self c t)
    have hdv : digitVal c = some (c - 48) := by
      unfold digitVal
      rw [if_pos (by omega)]
    simp only [parseUintAux, hdv]
    have hstep : acc * b + (c - 48) ≤
        List.foldl (fun a c => a * b + (c - 48)) (acc * b + (c - 48)) t :=
      foldl_digits_ge b (by omega) t (acc * b + (c - 48))
    have hle2 : List.foldl (fun a c => a * b + (c - 48)) (acc * b + (c - 48)) t ≤ maxVal := by
      rw [List.foldl_cons] at hle
      exact hle
    rw [if_neg (by omega), if_neg (by omega)]
    rw [ih (acc * b + (c - 48)) (fun x hx => hmem x (List.mem_cons_of_mem c hx))
      (by rw [List.foldl_cons] at hle; exact hle)]
    rw [List.foldl_cons]

lemma foldl_formatNat (b : Nat) (hb : 2 ≤ b) (n : Nat) :
    List.foldl (fun a c => a * b + (c - 48)) 0 (formatNat b n) = n := by
  rw [formatNat_eq b hb]
  by_cases h0 : n = 0
  · simp [h0]
  · rw [if_neg h0, List.foldl_map]
    have hfix : (fun (x : Nat) (y : Nat) => x * b + (48 + y - 48)) =
        fun (a : Nat) (d : Nat) => a * b + d := by
      funext a d
      omega
    rw [hfix, foldl_digits_reverse b, Nat.ofDigits_digits]
    simp

lemma parseUint_formatNat (b bits n : Nat) (hb : 2 ≤ b) (hb10 : b ≤ 10)
    (hn : n ≤ 2 ^ bits - 1) : parseUint b bits (formatNat b n) = .ok n := by
  unfold parseUint
  cases hs : formatNat b n with
  | nil => exact absurd hs (formatNat_ne_nil b hb n)
  | cons c t =>
    have hval := foldl_formatNat b hb n
    rw [hs] at hval
    have hmem : ∀ x ∈ c :: t, 48 ≤ x ∧ x < 48 + b := by
      rw [← hs]
      exact formatNat_mem b hb n
    rw [parseUintAux_ok b (2 ^ bits - 1) hb hb10 (c :: t) 0 hmem (by rw [hval]; exact hn), hval]

lemma formatNat_head_digit (b : Nat) (hb : 2 ≤ b) (hb10 : b ≤ 10) (n : Nat) (c : Nat)
    (t : List Nat) (hs : formatNat b n = c :: t) : 48 ≤ c ∧ c ≤ 57 := by
  have := formatNat_mem b hb n c (by rw [hs]; exact List.mem_cons_self c t)
  omega

lemma formatNat_lt_pow (b : Nat) (hb : 2 ≤ b) (n k : Nat)
    (hlen : (formatNat b n).length ≤ k) : n < b ^ k := by
  by_cases h0 : n = 0
  · subst h0
    exact Nat.pos_pow_of_pos k (by omega)
  · rw [formatNat_eq b hb, if_neg h0] at hlen
    simp only [List.length_map, List.length_reverse] at hlen
    calc n < b ^ (Nat.digits b n).length := Nat.lt_base_pow_length_digits (by omega)
    _ ≤ b ^ k := Nat.pow_le_pow_right (by omega) hlen

lemma parseIntCore_ok_pos (bits : Nat) (digits : List Nat) (n : Nat)
    (hpu : parseUint 10 bits digits = .ok n) (hn : n < 2 ^ (bits - 1)) :
    parseIntCore 10 bits digits false = .ok (n : Int) := by
  simp only [parseIntCore, hpu]
  rw [if_neg (fun hc => absurd hc.2 (by omega)), if_neg (fun hc => Bool.noConfusion hc.1),
    if_neg (fun hc => Bool.noConfusion hc)]

lemma parseIntCore_ok_neg (bits : Nat) (digits : List Nat) (n : Nat)
    (hpu : parseUint 10 bits digits = .ok n) (hn : n ≤ 2 ^ (bits - 1)) :
    parseIntCore 10 bits digits true = .ok (-(n : Int)) := by
  simp only [parseIntCore, hpu]
  rw [if_neg (fun hc => Bool.noConfusion hc.1), if_neg (fun hc => absurd hc.2 (by omega)),
    if_pos trivial]

lemma parseInt_formatInt (bits : Nat) (i : Int) (hbits : 1 ≤ bits)
    (hi : i.natAbs < 2 ^ (bits - 1)) : parseInt 10 bits (formatInt 10 i) = .ok i := by
  have hpow : 2 ^ bits = 2 ^ (bits - 1) * 2 := by
    conv_lhs => rw [show bits = (bits - 1) + 1 by omega]
    rw [pow_succ]
  by_cases hneg : i < 0
  · have hf : formatInt 10 i = 45 :: formatNat 10 i.natAbs := by
      unfold formatInt
      rw [if_pos hneg]
    rw [hf]
    have hred : parseInt 10 bits (45 :: formatNat 10 i.natAbs) =
        parseIntCore 10 bits (formatNat 10 i.natAbs) true := by
      simp only [parseInt]
      norm_num
    rw [hred]
    rw [parseIntCore_ok_neg bits _ i.natAbs
      (parseUint_formatNat 10 bits i.natAbs (by omega) (by omega) (by omega)) (by omega)]
    have hval : -((i.natAbs : Nat) : Int) = i := by omega
    rw [hval]
  · have hf : formatInt 10 i = formatNat 10 i.toNat := by
      unfold formatInt
      rw [if_neg hneg]
    rw [hf]
    cases hs : formatNat 10 i.toNat with
    | nil => exact absurd hs (formatNat_ne_nil 10 (by omega) _)
    | cons c t =>
      have hc := formatNat_head_digit 10 (by omega) (by omega) i.toNat c t hs
      simp only [parseInt]
      rw [if_neg (by omega), if_neg (by omega), ← hs]
      rw [parseIntCore_ok_pos bits _ i.toNat
        (parseUint_formatNat 10 bits i.toNat (by omega) (by omega) (by omega)) (by omega)]
      have hval : ((i.toNat : Nat) : Int) = i := by omega
      rw [hval]

lemma isSpaceB_false_of_ge (c : Nat) (h : 33 ≤ c) : isSpaceB c = false := by
  simp only [isSpaceB, Bool.or_eq_false_iff, beq_eq_false_iff_ne, ne_eq]
  omega

lemma formatNat_nospace (b : Nat) (hb : 2 ≤ b) (n : Nat) :
    ∀ c ∈ formatNat b n, isSpaceB c = false := by
  intro c hc
  have := formatNat_mem b hb n c hc
  exact isSpaceB_false_of_ge c (by omega)

lemma formatInt_nospace (i : Int) : ∀ c ∈ formatInt 10 i, isSpaceB c = false := by
  intro c hc
  unfold formatInt at hc
  by_cases hneg : i < 0
  · rw [if_pos hneg] at hc
    rcases List.mem_cons.1 hc with hc | hc
    · subst hc
      exact isSpaceB_false_of_ge 45 (by omega)
    · exact formatNat_nospace 10 (by omega) _ c hc
  · rw [if_neg hneg] at hc
    exact formatNat_nospace 10 (by omega) _ c hc

lemma dropWhile_replicate32_append (k : Nat) (t : List Nat) :
    List.dropWhile isSpaceB (List.replicate k 32 ++ t) = List.dropWhile isSpaceB t := by
  induction k with
  | zero => simp
  | succ n ih =>
    rw [List.replicate_succ, List.cons_append, List.dropWhile_cons,
      if_pos (by decide : isSpaceB 32 = true)]
    exact ih

lemma dropWhile_eq_self_of_nospace (l : List Nat) (h : ∀ c ∈ l, isSpaceB c = false) :
    List.dropWhile isSpaceB l = l := by
  cases l with
  | nil => rfl
  | cons c t =>
    rw [List.dropWhile_cons, if_neg (by simp [h c (List.mem_cons_self c t)])]

lemma trimSpace_pad (l : List Nat) (k : Nat) (h : ∀ c ∈ l, isSpaceB c = false) :
    trimSpace (l ++ List.replicate k 32) = l := by
  unfold trimSpace
  cases l with
  | nil =>
    rw [List.nil_append, ← List.append_nil (List.replicate k 32),
      dropWhile_replicate32_append]
    simp
  | cons c t =>
    have hc : isSpaceB c = false := h c (List.mem_cons_self c t)
    rw [List.cons_append, List.dropWhile_cons, if_neg (by simp [hc])]
    have hrev : (c :: (t ++ List.replicate k 32)).reverse =
        List.replicate k 32 ++ (c :: t).reverse := by
      rw [← List.cons_append, List.reverse_append, List.reverse_replicate]
    rw [hrev, dropWhile_replicate32_append,
      dropWhile_eq_self_of_nospace (c :: t).reverse
        (fun x hx => h x (List.mem_reverse.1 hx)),
      List.reverse_reverse]

lemma suffix_of_length_ge {l1 l2 : List Nat} (h : l1 <:+ l2) (hl : l2.length ≤ l1.length) :
    l1 = l2 := by
  obtain ⟨s, hs⟩ := h
  have hlen := congrArg List.length hs
  simp only [List.length_append] at hlen
  cases s with
  | nil => simpa using hs
  | cons x xs => simp at hlen; omega

lemma dropWhile_eq_self_of_trim (l : List Nat) (h : trimSpace l = l) :
    List.dropWhile isSpaceB l = l := by
  have h1 : (trimSpace l).length ≤ (List.dropWhile isSpaceB l).length := by
    unfold trimSpace
    simp only [List.length_reverse]
    have := (List.dropWhile_suffix (l := (l.dropWhile isSpaceB).reverse) isSpaceB).length_le
    simpa using this
  rw [h] at h1
  exact suffix_of_length_ge (List.dropWhile_suffix _) h1

lemma reverse_dropWhile_eq_self_of_trim (l : List Nat) (h : trimSpace l = l) :
    List.dropWhile isSpaceB l.reverse = l.reverse := by
  have hd := dropWhile_eq_self_of_trim l h
  have h2 : trimSpace l = (List.dropWhile isSpaceB l.reverse).reverse := by
    unfold trimSpace
    rw [hd]
  rw [h] at h2
  have := congrArg List.reverse h2
  simpa using this.symm

lemma trimSpace_pad_of_trimmed (l : List Nat) (k : Nat) (h : trimSpace l = l) :
    trimSpace (l ++ List.replicate k 32) = l := by
  have hd := dropWhile_eq_self_of_trim l h
  have hr := reverse_dropWhile_eq_self_of_trim l h
  cases l with
  | nil =>
    rw [List.nil_append]
    unfold trimSpace
    rw [← List.append_nil (List.replicate k 32), dropWhile_replicate32_append]
    simp
  | cons c t =>
    have hc : isSpaceB c = false := by
      by_contra hcc
      have hcc2 : isSpaceB c = true := by revert hcc; cases isSpaceB c <;> simp
      have hdt : List.dropWhile isSpaceB (c :: t) = List.dropWhile isSpaceB t := by
        rw [List.dropWhile_cons, if_pos hcc2]
      rw [hd] at hdt
      have hlen := congrArg List.length hdt
      have hle := (List.dropWhile_suffix (l := t) isSpaceB).length_le
      simp only [List.length_cons] at hlen
      omega
    unfold trimSpace
    rw [List.cons_append, List.dropWhile_cons, if_neg (by simp [hc])]
    have hrev : (c :: (t ++ List.replicate k 32)).reverse =
        List.replicate k 32 ++ (c :: t).reverse := by
      rw [← List.cons_append, List.reverse_append, List.reverse_replicate]
    rw [hrev, dropWhile_replicate32_append, hr, List.reverse_reverse]

lemma and_mask_full (m : Nat) (hm : m < 512) : m &&& 0o170777 = m := by
  apply Nat.eq_of_testBit_eq
  intro i
  rw [Nat.testBit_and]
  by_cases hi : i < 9
  · have hbit : Nat.testBit 0o170777 i = true := by interval_cases i <;> decide
    rw [hbit, Bool.and_true]
  · have hbit : Nat.testBit m i = false := Nat.testBit_lt_two_pow (lt_of_lt_of_le hm (by
      calc (512 : Nat) = 2 ^ 9 := by norm_num
      _ ≤ 2 ^ i := Nat.pow_le_pow_right (by norm_num) (by omega)))
    rw [hbit, Bool.false_and]

lemma and_mask_type (m : Nat) (hm : m < 512) : m &&& 0o170000 = 0 := by
  apply Nat.eq_of_testBit_eq
  intro i
  rw [Nat.testBit_and, Nat.zero_testBit]
  by_cases hi : i < 9
  · have hbit : Nat.testBit 0o170000 i = false := by interval_cases i <;> decide
    rw [hbit, Bool.and_false]
  · have hbit : Nat.testBit m i = false := Nat.testBit_lt_two_pow (lt_of_lt_of_le hm (by
      calc (512 : Nat) = 2 ^ 9 := by norm_num
      _ ≤ 2 ^ i := Nat.pow_le_pow_right (by norm_num) (by omega)))
    rw [hbit, Bool.false_and]

lemma and_perm (m : Nat) (hm : m < 512) : m &&& 0o777 = m := by
  apply Nat.eq_of_testBit_eq
  intro i
  rw [Nat.testBit_and]
  by_cases hi : i < 9
  · have hbit : Nat.testBit 0o777 i = true := by interval_cases i <;> decide
    rw [hbit, Bool.and_true]
  · have hbit : Nat.testBit m i = false := Nat.testBit_lt_two_pow (lt_of_lt_of_le hm (by
      calc (512 : Nat) = 2 ^ 9 := by norm_num
      _ ≤ 2 ^ i := Nat.pow_le_pow_right (by norm_num) (by omega)))
    rw [hbit, Bool.false_and]

lemma parseFileMode_formatNat (m : Nat) (hm : m ≤ 0o777) :
    parseFileMode (formatNat 8 m) = .ok m := by
  have h512 : m < 512 := by omega
  have hpu : parseUint 8 32 (formatNat 8 m) = .ok m :=
    parseUint_formatNat 8 32 m (by omega) (by omega) (hm.trans (by norm_num))
  simp only [parseFileMode, hpu]
  rw [if_neg (show ¬ m ≠ m &&& 0o170777 from by rw [and_mask_full m h512]; simp),
    if_pos (Or.inl (and_mask_type m h512)), and_perm m h512]

lemma formatNat_length_le (b n k : Nat) (hb : 2 ≤ b) (hk : 1 ≤ k) (h : n < b ^ k) :
    (formatNat b n).length ≤ k := by
  rw [formatNat_eq b hb]
  by_cases h0 : n = 0
  · rw [if_pos h0]
    simpa using hk
  · rw [if_neg h0]
    simp only [List.length_map, List.length_reverse]
    rw [Nat.digits_len b n (by omega) h0]
    have hlog : Nat.log b n < k := (Nat.lt_pow_iff_log_lt (by omega) h0).1 h
    omega

lemma formatInt_natAbs_lt (i : Int) (k : Nat) (hk : 1 ≤ k)
    (h : (formatInt 10 i).length ≤ k) : i.natAbs < 10 ^ k := by
  unfold formatInt at h
  by_cases hneg : i < 0
  · rw [if_pos hneg] at h
    simp only [List.length_cons] at h
    have := formatNat_lt_pow 10 (by omega) i.natAbs (k - 1) (by omega)
    calc i.natAbs < 10 ^ (k - 1) := this
    _ ≤ 10 ^ k := Nat.pow_le_pow_right (by omega) (by omega)
  · rw [if_neg hneg] at h
    have := formatNat_lt_pow 10 (by omega) i.toNat k h
    omega

/-- A field padded with spaces to its fixed width. -/
def padF (s : List Nat) (w : Nat) : List Nat := s ++ List.replicate (w - s.length) 32

lemma padF_length (s : List Nat) (w : Nat) (h : s.length ≤ w) : (padF s w).length = w := by
  simp only [padF, List.length_append, List.length_replicate]
  omega

/-- The 60-byte block produced by `writeFileHeader` for already-encoded
name, mtime, mode and size fields, as a plain concatenation. -/
def headerShape (nm t moS szS : List Nat) : List Nat :=
  padF nm 16 ++ (padF t 12 ++ (padF [48] 6 ++ (padF [48] 6 ++
    (padF moS 8 ++ (padF szS 10 ++ [96, 10])))))

lemma copyAt_step (A : List Nat) (m : Nat) (s : List Nat) (i : Nat)
    (hA : A.length = i) (hs : s.length ≤ m) :
    copyAt (A ++ List.replicate m 32) i s =
      A ++ (s ++ List.replicate (m - s.length) 32) := by
  unfold copyAt
  rw [List.take_left' hA]
  have h1 : s.take ((A ++ List.replicate m 32).length - i) = s :=
    List.take_of_length_le (by simp only [List.length_append, List.length_replicate]; omega)
  rw [h1]
  have h2 : (A ++ List.replicate m 32).drop (i + s.length) =
      List.replicate (m - s.length) 32 := by
    rw [List.drop_append_eq_append_drop]
    rw [List.drop_eq_nil_of_le (by omega), List.nil_append, List.drop_replicate]
    congr 1
    omega
  rw [h2, List.append_assoc]

lemma replicate32_split (m k1 k2 : Nat) (h : m = k1 + k2) :
    List.replicate m 32 = List.replicate k1 32 ++ List.replicate k2 32 := by
  rw [h, List.replicate_add]

lemma header_overlay (nm t moS szS : List Nat)
    (hn : nm.length ≤ 16) (ht : t.length ≤ 12) (hmo : moS.length ≤ 8)
    (hsz : szS.length ≤ 10) :
    copyAt (copyAt (copyAt (copyAt (copyAt (copyAt (copyAt
        (List.replicate 60 32) 0 nm) 16 t) 28 [48]) 34 [48]) 40 moS) 48 szS) 58 [96, 10]
      = headerShape nm t moS szS := by
  have e1 : copyAt (List.replicate 60 32) 0 nm
      = (nm ++ List.replicate (16 - nm.length) 32) ++ List.replicate 44 32 := by
    have h := copyAt_step [] 60 nm 0 rfl (by omega)
    simp only [List.nil_append] at h
    rw [h, replicate32_split (60 - nm.length) (16 - nm.length) 44 (by omega)]
    simp [List.append_assoc]
  rw [e1]
  rw [copyAt_step (nm ++ List.replicate (16 - nm.length) 32) 44 t 16
    (by simp only [List.length_append, List.length_replicate]; omega) (by omega)]
  rw [replicate32_split (44 - t.length) (12 - t.length) 32 (by omega)]
  simp only [← List.append_assoc]
  rw [copyAt_step _ 32 [48] 28
    (by simp only [List.length_append, List.length_replicate]; omega)
    (by simp)]
  rw [replicate32_split (32 - ([48] : List Nat).length) 5 26 (by simp)]
  simp only [← List.append_assoc]
  rw [copyAt_step _ 26 [48] 34
    (by simp only [List.length_append, List.length_replicate, List.length_cons,
      List.length_nil]; omega)
    (by simp)]
  rw [replicate32_split (26 - ([48] : List Nat).length) 5 20 (by simp)]
  simp only [← List.append_assoc]
  rw [copyAt_step _ 20 moS 40
    (by simp only [List.length_append, List.length_replicate, List.length_cons,
      List.length_nil]; omega)
    (by omega)]
  rw [replicate32_split (20 - moS.length) (8 - moS.length) 12 (by omega)]
  simp only [← List.append_assoc]
  rw [copyAt_step _ 12 szS 48
    (by simp only [List.length_append, List.length_replicate, List.length_cons,
      List.length_nil]; omega)
    (by omega)]
  rw [replicate32_split (12 - szS.length) (10 - szS.length) 2 (by omega)]
  simp only [← List.append_assoc]
  rw [copyAt_step _ 2 [96, 10] 58
    (by simp only [List.length_append, List.length_replicate, List.length_cons,
      List.length_nil]; omega)
    (by simp)]
  simp [headerShape, padF, List.append_assoc]

lemma getD_of_drop (l : List Nat) (n a : Nat) (t : List Nat) (h : l.drop n = a :: t) :
    l.getD n 0 = a := by
  induction n generalizing l with
  | zero =>
    rw [List.drop_zero] at h
    subst h
    rfl
  | succ n ih =>
    cases l with
    | nil => simp at h
    | cons x xs =>
      rw [List.drop_succ_cons] at h
      rw [List.getD_cons_succ]
      exact ih xs h

lemma headerShape_fields (nm t moS szS : List Nat)
    (hn : nm.length ≤ 16) (ht : t.length ≤ 12) (hmo : moS.length ≤ 8)
    (hsz : szS.length ≤ 10) :
    (headerShape nm t moS szS).length = 60
    ∧ (headerShape nm t moS szS).take 16 = padF nm 16
    ∧ ((headerShape nm t moS szS).drop 16).take 12 = padF t 12
    ∧ ((headerShape nm t moS szS).drop 40).take 8 = padF moS 8
    ∧ ((headerShape nm t moS szS).drop 48).take 10 = padF szS 10
    ∧ (headerShape nm t moS szS).drop 58 = [96, 10] := by
  have l1 := padF_length nm 16 hn
  have l2 := padF_length t 12 ht
  have l3 : (padF [48] 6).length = 6 := by simp [padF]
  have l5 := padF_length moS 8 hmo
  have l6 := padF_length szS 10 hsz
  have d16 : (headerShape nm t moS szS).drop 16 =
      padF t 12 ++ (padF [48] 6 ++ (padF [48] 6 ++ (padF moS 8 ++ (padF szS 10 ++ [96, 10])))) :=
    List.drop_left' l1
  have d28 : (headerShape nm t moS szS).drop 28 =
      padF [48] 6 ++ (padF [48] 6 ++ (padF moS 8 ++ (padF szS 10 ++ [96, 10]))) := by
    have e : ((headerShape nm t moS szS).drop 16).drop 12 = (headerShape nm t moS szS).drop 28 := by
      rw [List.drop_drop]
    rw [← e, d16]
    exact List.drop_left' l2
  have d34 : (headerShape nm t moS szS).drop 34 =
      padF [48] 6 ++ (padF moS 8 ++ (padF szS 10 ++ [96, 10])) := by
    have e : ((headerShape nm t moS szS).drop 28).drop 6 = (headerShape nm t moS szS).drop 34 := by
      rw [List.drop_drop]
    rw [← e, d28]
    exact List.drop_left' l3
  have d40 : (headerShape nm t moS szS).drop 40 =
      padF moS 8 ++ (padF szS 10 ++ [96, 10]) := by
    have e : ((headerShape nm t moS szS).drop 34).drop 6 = (headerShape nm t moS szS).drop 40 := by
      rw [List.drop_drop]
    rw [← e, d34]
    exact List.drop_left' l3
  have d48 : (headerShape nm t moS szS).drop 48 = padF szS 10 ++ [96, 10] := by
    have e : ((headerShape nm t moS szS).drop 40).drop 8 = (headerShape nm t moS szS).drop 48 := by
      rw [List.drop_drop]
    rw [← e, d40]
    exact List.drop_left' l5
  have d58 : (headerShape nm t moS szS).drop 58 = [96, 10] := by
    have e : ((headerShape nm t moS szS).drop 48).drop 10 = (headerShape nm t moS szS).drop 58 := by
      rw [List.drop_drop]
    rw [← e, d48]
    exact List.drop_left' l6
  refine ⟨?_, List.take_left' l1, ?_, ?_, ?_, d58⟩
  · simp only [headerShape, List.length_append, l1, l2, l3, l5, l6, List.length_cons,
      List.length_nil]
  · rw [d16]
    exact List.take_left' l2
  · rw [d40]
    exact List.take_left' l5
  · rw [d48]
    exact List.take_left' l6

set_option maxRecDepth 8000 in
/-- Counterexample to C1 as stated: the metadata with the 1-byte name
consisting of a single space (mode 0, size 0, mtime 0) encodes successfully,
but decoding trims the space-padded name field, so the decoded name is empty
and differs from the original. -/
theorem header_roundtrip_space_name :
    Except.bind (writeFileHeader ⟨[32], 0, 0, 0⟩) parseFileHeader =
      .ok ⟨[], 0, 0, 0⟩ ∧ ([] : List Nat) ≠ [32] := by
  constructor <;> decide

/-- Claim C1 (amended): for metadata whose name is at most 16 bytes and
equal to its own whitespace trim, whose mode holds only the 9 permission
bits, whose size is non-negative with a decimal encoding of at most 10
bytes, and whose mtime has a decimal encoding of at most 12 bytes (all
times being whole seconds in this model), encoding then decoding the
60-byte header succeeds and returns exactly the original metadata. -/
theorem header_roundtrip :
    ∀ meta : FileInfo,
      meta.name.length ≤ 16 →
      trimSpace meta.name = meta.name →
      meta.mode ≤ 0o777 →
      0 ≤ meta.size →
      (formatInt 10 meta.size).length ≤ 10 →
      (formatInt 10 meta.mtime).length ≤ 12 →
      ∃ h, writeFileHeader meta = .ok h ∧ parseFileHeader h = .ok meta := by
  intro meta h16 htrim hmode hsz0 hszlen htlen
  have hmo8 : (formatNat 8 meta.mode).length ≤ 8 :=
    formatNat_length_le 8 meta.mode 8 (by omega) (by omega)
      (lt_of_le_of_lt hmode (by norm_num))
  have hmtabs : meta.mtime.natAbs < 2 ^ 63 :=
    lt_trans (formatInt_natAbs_lt meta.mtime 12 (by omega) htlen) (by norm_num)
  have hszabs : meta.size.natAbs < 2 ^ 63 :=
    lt_trans (formatInt_natAbs_lt meta.size 10 (by omega) hszlen) (by norm_num)
  have hshape : writeFileHeader meta =
      .ok (headerShape meta.name (formatInt 10 meta.mtime) (formatNat 8 meta.mode)
        (formatInt 10 meta.size)) := by
    unfold writeFileHeader
    rw [if_neg (by omega)]
    show Except.ok (copyAt (copyAt (copyAt (copyAt (copyAt (copyAt (copyAt
        (List.replicate 60 32) 0 meta.name) 16 (formatInt 10 meta.mtime)) 28 [48]) 34 [48])
          40 (formatNat 8 meta.mode)) 48 (formatInt 10 meta.size)) 58 filemagicBytes) = _
    rw [show filemagicBytes = [96, 10] from rfl]
    exact congrArg Except.ok (header_overlay meta.name (formatInt 10 meta.mtime)
      (formatNat 8 meta.mode) (formatInt 10 meta.size) h16 htlen hmo8 hszlen)
  refine ⟨_, hshape, ?_⟩
  obtain ⟨hlen60, hf0, hf1, hf2, hf3, hf4⟩ :=
    headerShape_fields meta.name (formatInt 10 meta.mtime) (formatNat 8 meta.mode)
      (formatInt 10 meta.size) h16 htlen hmo8 hszlen
  have g58 : (headerShape meta.name (formatInt 10 meta.mtime) (formatNat 8 meta.mode)
      (formatInt 10 meta.size)).getD 58 0 = 96 := getD_of_drop _ 58 96 [10] hf4
  have g59 : (headerShape meta.name (formatInt 10 meta.mtime) (formatNat 8 meta.mode)
      (formatInt 10 meta.size)).getD 59 0 = 10 := by
    have e : ((headerShape meta.name (formatInt 10 meta.mtime) (formatNat 8 meta.mode)
        (formatInt 10 meta.size)).drop 58).drop 1 =
        (headerShape meta.name (formatInt 10 meta.mtime) (formatNat 8 meta.mode)
          (formatInt 10 meta.size)).drop 59 := by
      rw [List.drop_drop]
    rw [hf4] at e
    exact getD_of_drop _ 59 10 [] (by rw [← e]; rfl)
  unfold parseFileHeader
  rw [if_neg (fun hc => hc hlen60)]
  rw [if_neg (by rw [g58, g59]; simp)]
  dsimp only
  rw [hf0,
    show padF meta.name 16 =
      meta.name ++ List.replicate (16 - meta.name.length) 32 from rfl,
    trimSpace_pad_of_trimmed meta.name _ htrim]
  rw [hf1,
    show padF (formatInt 10 meta.mtime) 12 = formatInt 10 meta.mtime ++
      List.replicate (12 - (formatInt 10 meta.mtime).length) 32 from rfl,
    trimSpace_pad (formatInt 10 meta.mtime) _ (formatInt_nospace meta.mtime),
    parseInt_formatInt 64 meta.mtime (by omega) hmtabs]
  rw [hf2,
    show padF (formatNat 8 meta.mode) 8 = formatNat 8 meta.mode ++
      List.replicate (8 - (formatNat 8 meta.mode).length) 32 from rfl,
    trimSpace_pad (formatNat 8 meta.mode) _ (formatNat_nospace 8 (by omega) meta.mode),
    parseFileMode_formatNat meta.mode hmode]
  rw [hf3,
    show padF (formatInt 10 meta.size) 10 = formatInt 10 meta.size ++
      List.replicate (10 - (formatInt 10 meta.size).length) 32 from rfl,
    trimSpace_pad (formatInt 10 meta.size) _ (formatInt_nospace meta.size),
    parseInt_formatInt 64 meta.size (by omega) hszabs]

set_option maxRecDepth 8000 in
/-- Witness for C1 (amended) at name `"deb"`, mode `0644`, size 4,
mtime 99. -/
theorem header_roundtrip_witness :
    (([100, 101, 98] : List Nat).length ≤ 16
      ∧ trimSpace [100, 101, 98] = [100, 101, 98]
      ∧ (0o644 : Nat) ≤ 0o777
      ∧ (0 : Int) ≤ (4 : Int)
      ∧ (formatInt 10 4).length ≤ 10
      ∧ (formatInt 10 99).length ≤ 12)
    ∧ ∃ h, writeFileHeader ⟨[100, 101, 98], 0o644, 4, 99⟩ = .ok h
        ∧ parseFileHeader h = .ok ⟨[100, 101, 98], 0o644, 4, 99⟩ :=
  ⟨⟨by decide, by decide, by decide, by decide, by decide, by decide⟩,
   header_roundtrip ⟨[100, 101, 98], 0o644, 4, 99⟩ (by decide) (by decide) (by decide)
     (by decide) (by decide) (by decide)⟩

/-- Witness for C10 at the freshly constructed reader on the empty stream,
instantiated at both panic messages of the source. -/
theorem public_ops_no_panic_witness :
    (next (newReader [])).2 ≠ .error (.panicked "invalid file header")
    ∧ (readR (newReader []) 0).2 ≠ .error (.panicked "flush_section called, but no section present") :=
  ⟨(public_ops_no_panic (newReader []) (Reach.base []) 0 "invalid file header").1,
   (public_ops_no_panic (newReader []) (Reach.base [])
      0 "flush_section called, but no section present").2⟩

end Ar
